import Mathlib

/-!
Verification of the record-cleaning pipeline of `excel_automation.py`
(repository `excel-workflow-automation`).

The pipeline works on pandas DataFrames produced by `load_data` (reading a
CSV or Excel file).  We embed such a frame as a `Table`: a list of column
names together with a list of rows, each row a positional list of cells.
A cell is an integer/floating-point number (embedded as a rational), a
string, or the missing marker (pandas `NaN`/`None`).

Column dtypes are embedded by classification over the cell values: a loader
produced column whose non-missing entries are all numbers has dtype
`int64`/`float64` (missing entries are `NaN`, and an all-missing column is
`float64`), otherwise it has dtype `object`.  `clean_data`'s
`select_dtypes(include=["int64", "float64"])` therefore selects exactly the
columns in which every non-missing cell is numeric, and its
`select_dtypes(include=["object"])` the remaining ones.
-/

namespace ExcelWorkflow

/-- Cell of a DataFrame: a number (`int64`/`float64` entry, embedded as `ℚ`),
a string (`object` entry), or the missing marker (`NaN`/`None`). -/
inductive Value where
  | num : ℚ → Value
  | str : String → Value
  | missing : Value
deriving DecidableEq, Repr

abbrev Row := List Value

/-- Embedding of a pandas DataFrame: column names plus rows of cells,
column access being positional. -/
structure Table where
  cols : List String
  rows : List Row
deriving DecidableEq, Repr

def isNum : Value → Bool
  | .num _ => true
  | _ => false

def isMissing : Value → Bool
  | .missing => true
  | _ => false

/-- Cells of column `j`, one per row (rows too short contribute the missing
marker, matching a rectangular frame's `NaN` padding). -/
def colCells (rows : List Row) (j : Nat) : List Value :=
  rows.map (fun r => r.getD j .missing)

/-- Column dtype test: column `j` is an `int64`/`float64` column iff every
non-missing cell is numeric (see the header comment; an all-missing column
loads as `float64` and is therefore numeric). -/
def numericCol (rows : List Row) (j : Nat) : Bool :=
  (colCells rows j).all (fun v => isMissing v || isNum v)

/-- Non-missing numeric entries of column `j`, in row order. -/
def colNums (rows : List Row) (j : Nat) : List ℚ :=
  (colCells rows j).filterMap (fun v =>
    match v with
    | .num q => some q
    | _ => none)

/-- `df[numeric_cols].mean()` for column `j`: the arithmetic mean of the
non-missing entries, or `none` (pandas `NaN`) when there is no such entry —
`fillna` with a `NaN` fill value leaves the column untouched. -/
def colMean (rows : List Row) (j : Nat) : Option ℚ :=
  let vs := colNums rows j
  if vs.isEmpty then none else some (vs.sum / (vs.length : ℚ))

/-- Apply `f j v` to the cell `v` at each column position `j` of a row,
starting at position `k`. -/
def mapCellsFrom (f : Nat → Value → Value) : Nat → Row → Row
  | _, [] => []
  | k, v :: vs => f k v :: mapCellsFrom f (k + 1) vs

/-- Cell action of `df[numeric_cols] = df[numeric_cols].fillna(df[numeric_cols].mean())`:
in a numeric column a missing cell becomes the column mean when that mean
exists; every other cell (and every cell of an `object` column) is kept. -/
def numFillCell (numeric : Bool) (mean : Option ℚ) : Value → Value
  | .missing =>
      if numeric then
        match mean with
        | some m => .num m
        | none => .missing
      else .missing
  | v => v

/-- `df[numeric_cols] = df[numeric_cols].fillna(df[numeric_cols].mean())`,
with dtypes and means read off the frame `rows` it is applied to. -/
def numFillRows (rows : List Row) : List Row :=
  rows.map (mapCellsFrom (fun j v => numFillCell (numericCol rows j) (colMean rows j) v) 0)

/-- Cell action of `df[text_cols] = df[text_cols].fillna("Unknown")`: in an
`object` column a missing cell becomes the literal string `"Unknown"`;
numeric columns are untouched. -/
def textFillCell (numeric : Bool) : Value → Value
  | .missing => if numeric then .missing else .str "Unknown"
  | v => v

/-- `df[text_cols] = df[text_cols].fillna("Unknown")`, with dtypes read off
the frame `rows` it is applied to (the code computes `text_cols` on the
frame produced by the numeric fill). -/
def textFillRows (rows : List Row) : List Row :=
  rows.map (mapCellsFrom (fun j v => textFillCell (numericCol rows j) v) 0)

/-- `df.drop_duplicates()` scan: keep a row iff it was not seen before
(`keep="first"`; pandas treats two `NaN` cells as equal for duplicate
detection, as does our `Value` equality). -/
def dropDupSeen : List Row → List Row → List Row
  | [], _ => []
  | r :: rs, seen =>
      if r ∈ seen then dropDupSeen rs seen
      else r :: dropDupSeen rs (r :: seen)

/-- `df.drop_duplicates()`. -/
def dropDuplicates (rows : List Row) : List Row :=
  dropDupSeen rows []

/-- `clean_data` (`excel_automation.py`, lines 47-70): drop duplicate rows,
fill missing numeric cells with the column mean, fill missing `object`
cells with `"Unknown"`.  The happy path never raises, so the `except`
branch does not appear here; see `clean_dataOnError` for the handler. -/
def clean_data (t : Table) : Table :=
  let d := dropDuplicates t.rows
  ⟨t.cols, textFillRows (numFillRows d)⟩

/-- Combined cell action of the two fill statements on one frame. -/
def cleanCell (numeric : Bool) (mean : Option ℚ) (v : Value) : Value :=
  textFillCell numeric (numFillCell numeric mean v)

/-- Row action of both fill statements, dtypes and means read off `rows`. -/
def fillRow (rows : List Row) (r : Row) : Row :=
  mapCellsFrom (fun j v => cleanCell (numericCol rows j) (colMean rows j) v) 0 r

/-- SQLite folds the case of ASCII letters when resolving unquoted column
names such as the `Amount` in `SELECT * FROM data WHERE Amount >= 0`. -/
def lowerChar (c : Char) : Char :=
  if 'A' ≤ c ∧ c ≤ 'Z' then Char.ofNat (c.toNat + 32) else c

/-- ASCII-lowercased column name, the key under which SQLite matches it. -/
def colKey (c : String) : String :=
  ⟨c.data.map lowerChar⟩

/-- SQLite rendering of a number stored into a TEXT-affinity column
(`df.to_sql` declares `object` columns as TEXT, and TEXT affinity converts
inserted numbers to their text form).  Integral values render as their
digits; non-integral rationals stand in for floating-point values, whose
exact decimal rendering is outside this embedding and is never relied on. -/
def sqlNumText (q : ℚ) : String :=
  if q.den = 1 then toString q.num else toString q.num ++ "/" ++ toString q.den

/-- Storage action of `df.to_sql` on one cell: cells of numeric columns
keep their storage class, cells of `object` (TEXT-affinity) columns are
converted to text, and missing cells are stored as NULL either way. -/
def storeCell (numeric : Bool) : Value → Value
  | .num q => if numeric then .num q else .str (sqlNumText q)
  | v => v

/-- Byte-wise (BINARY collation) string comparison used by SQLite, on the
character lists of the two strings; for the ASCII strings involved here it
agrees with memcmp on the UTF-8 encodings. -/
def charsLt : List Char → List Char → Bool
  | [], [] => false
  | [], _ :: _ => true
  | _ :: _, [] => false
  | a :: as, b :: bs => if a < b then true else if b < a then false else charsLt as bs

/-- Truth of `Amount >= 0` on a stored cell.  A NULL compares to nothing, so
the row is dropped.  In a numeric-affinity column the comparison is numeric.
In a TEXT-affinity column the literal `0` receives TEXT affinity and the
comparison is the BINARY collation against `"0"`; any TEXT value in a
numeric-affinity column sorts above every number. -/
def sqlKeep (numeric : Bool) : Value → Bool
  | .missing => false
  | .num q => decide (0 ≤ q)
  | .str s => if numeric then true else !(charsLt s.data "0".data)

/-- `validate_with_sql` (`excel_automation.py`, lines 72-91): copy the frame
into an in-memory SQLite table and read back `SELECT * FROM data WHERE
Amount >= 0`.  A duplicate column name (case-insensitively — SQLite rejects
`CREATE TABLE` with such columns) or a missing `Amount` column (`no such
column` error) raises, and the handler returns the input frame unchanged. -/
def validate_with_sql (t : Table) : Table :=
  if (t.cols.map colKey).Nodup then
    match t.cols.findIdx? (fun c => colKey c = "amount") with
    | none => t
    | some i =>
        let stored := t.rows.map (mapCellsFrom (fun j v => storeCell (numericCol t.rows j) v) 0)
        ⟨t.cols, stored.filter (fun r => sqlKeep (numericCol t.rows i) (r.getD i .missing))⟩
  else t

/-- Parse format selected by `load_data`. -/
inductive ParseFormat where
  | csv
  | excel
deriving DecidableEq, Repr

/-- Extension dispatch of `load_data` (`excel_automation.py`, lines 30-39):
both the string-path branch and the uploaded-file branch test
`.endswith(".csv")` on the name — an exact, case-sensitive suffix test,
embedded on the character list of the name — and fall back to
`pd.read_excel` otherwise. -/
def fileDispatch (name : String) : ParseFormat :=
  if ".csv".data.isSuffixOf name.data then .csv else .excel

/-- Statement of `clean_data` inside which an unexpected error may occur. -/
inductive CleanStep where
  | dedupStep
  | numericFillStep
  | textFillStep
deriving DecidableEq, Repr

/-- Value returned by `clean_data` when an unexpected exception is raised
in the given statement: the handler executes `return df`, and `df` is the
local binding at that moment — the untouched input before
`df = df.drop_duplicates()` completes, the deduplicated frame before the
numeric fill completes, and the deduplicated, numeric-filled frame before
the text fill completes. -/
def clean_dataOnError (t : Table) : CleanStep → Table
  | .dedupStep => t
  | .numericFillStep => ⟨t.cols, dropDuplicates t.rows⟩
  | .textFillStep => ⟨t.cols, numFillRows (dropDuplicates t.rows)⟩

/-- Specification-side first-occurrence collapse: keep the head row and
throw away its later copies, recursively.  `theorem dropDuplicates_eq_firstOccSpec`
identifies it with the `drop_duplicates` scan above. -/
def firstOccSpec : List Row → List Row
  | [] => []
  | r :: rs => r :: firstOccSpec (rs.filter (fun x => x ≠ r))
termination_by l => l.length
decreasing_by
  simp only [List.length_cons]
  exact Nat.lt_succ_of_le (List.length_filter_le _ rs)

/-- Rows of a table after both fill statements, a reasoning shorthand. -/
def fillRows (d : List Row) : List Row :=
  d.map (fillRow d)

/-- Cell at row `i`, column `j`, when both exist. -/
def cell? (rows : List Row) (i j : Nat) : Option Value :=
  (rows.get? i).bind (fun r => r.get? j)

/-- Reading of the validation rule claimed by the specification: the cell
holds a number and the number is nonnegative. -/
def isNonnegAmount : Value → Bool
  | .num q => decide (0 ≤ q)
  | _ => false

theorem getD_eq_get? {α : Type} (l : List α) (j : Nat) (d : α) :
    l.getD j d = (l.get? j).getD d := by
  simp [List.getD_eq_getElem?_getD, List.get?_eq_getElem?]

theorem mapCellsFrom_get? (f : Nat → Value → Value) :
    ∀ (r : Row) (k j : Nat), (mapCellsFrom f k r).get? j = (r.get? j).map (f (k + j))
  | [], _, _ => by simp [mapCellsFrom]
  | v :: vs, k, 0 => by simp [mapCellsFrom]
  | v :: vs, k, j + 1 => by
      have ih := mapCellsFrom_get? f vs (k + 1) j
      simpa [mapCellsFrom, Nat.add_assoc, Nat.add_comm 1 j] using ih

theorem mapCellsFrom_length (f : Nat → Value → Value) :
    ∀ (k : Nat) (r : Row), (mapCellsFrom f k r).length = r.length
  | _, [] => rfl
  | k, v :: vs => by simp [mapCellsFrom, mapCellsFrom_length f (k + 1) vs]

theorem mapCellsFrom_getD (f : Nat → Value → Value) (r : Row) (j : Nat) :
    (mapCellsFrom f 0 r).getD j .missing =
      if j < r.length then f j (r.getD j .missing) else .missing := by
  rw [getD_eq_get?, mapCellsFrom_get?, getD_eq_get?]
  rcases h : r.get? j with _ | v
  · rw [List.get?_eq_none] at h
    simp [Option.map_none', if_neg (Nat.not_lt.mpr h)]
  · have hlt : j < r.length := by
      rcases List.get?_eq_some.mp h with ⟨hj, _⟩
      exact hj
    simp [h, if_pos hlt, Nat.zero_add]

theorem getD_default_of_le {α : Type} (l : List α) (j : Nat) (d : α) (h : l.length ≤ j) :
    l.getD j d = d := by
  rw [getD_eq_get?, List.get?_eq_none.mpr h]
  rfl

theorem mem_of_mem_dropDupSeen :
    ∀ (rows seen : List Row) (r : Row), r ∈ dropDupSeen rows seen → r ∈ rows
  | [], _, _, h => by simp [dropDupSeen] at h
  | x :: rs, seen, r, h => by
      by_cases hx : x ∈ seen
      · simp only [dropDupSeen, if_pos hx] at h
        exact List.mem_cons_of_mem _ (mem_of_mem_dropDupSeen rs seen r h)
      · simp only [dropDupSeen, if_neg hx, List.mem_cons] at h
        rcases h with h | h
        · exact h ▸ List.mem_cons_self _ _
        · exact List.mem_cons_of_mem _ (mem_of_mem_dropDupSeen rs (x :: seen) r h)

theorem mem_dropDupSeen_of_mem :
    ∀ (rows seen : List Row) (r : Row), r ∈ rows → r ∈ seen ∨ r ∈ dropDupSeen rows seen
  | [], _, _, h => by simp at h
  | x :: rs, seen, r, h => by
      rcases List.mem_cons.mp h with rfl | hr
      · by_cases hx : r ∈ seen
        · exact Or.inl hx
        · simp only [dropDupSeen, if_neg hx]
          exact Or.inr (List.mem_cons_self _ _)
      · by_cases hx : x ∈ seen
        · simpa [dropDupSeen, if_pos hx] using mem_dropDupSeen_of_mem rs seen r hr
        · simp only [dropDupSeen, if_neg hx]
          rcases mem_dropDupSeen_of_mem rs (x :: seen) r hr with hs | hd
          · rcases List.mem_cons.mp hs with rfl | hs
            · exact Or.inr (List.mem_cons_self _ _)
            · exact Or.inl hs
          · exact Or.inr (List.mem_cons_of_mem _ hd)

theorem mem_dropDuplicates (rows : List Row) (r : Row) (h : r ∈ rows) :
    r ∈ dropDuplicates rows := by
  rcases mem_dropDupSeen_of_mem rows [] r h with hs | hd
  · simp at hs
  · exact hd

theorem dropDupSeen_sublist : ∀ (rows seen : List Row), (dropDupSeen rows seen).Sublist rows
  | [], _ => List.Sublist.refl _
  | x :: rs, seen => by
      by_cases hx : x ∈ seen
      · simp only [dropDupSeen, if_pos hx]
        exact (dropDupSeen_sublist rs seen).cons x
      · simp only [dropDupSeen, if_neg hx]
        exact (dropDupSeen_sublist rs (x :: seen)).cons₂ x

theorem dropDupSeen_nodup_and_disjoint :
    ∀ (rows seen : List Row),
      (dropDupSeen rows seen).Nodup ∧ ∀ r ∈ dropDupSeen rows seen, r ∉ seen
  | [], _ => by simp [dropDupSeen]
  | x :: rs, seen => by
      by_cases hx : x ∈ seen
      · simpa [dropDupSeen, if_pos hx] using dropDupSeen_nodup_and_disjoint rs seen
      · obtain ⟨hnd, hdisj⟩ := dropDupSeen_nodup_and_disjoint rs (x :: seen)
        simp only [dropDupSeen, if_neg hx]
        constructor
        · refine List.nodup_cons.mpr ⟨fun hmem => ?_, hnd⟩
          exact (hdisj x hmem) (List.mem_cons_self _ _)
        · intro r hr
          rcases List.mem_cons.mp hr with rfl | hr
          · exact hx
          · exact fun hseen => (hdisj r hr) (List.mem_cons_of_mem _ hseen)

theorem dropDuplicates_nodup (rows : List Row) : (dropDuplicates rows).Nodup :=
  (dropDupSeen_nodup_and_disjoint rows []).1

theorem dropDupSeen_eq_self :
    ∀ (rows seen : List Row), rows.Nodup → (∀ r ∈ rows, r ∉ seen) →
      dropDupSeen rows seen = rows
  | [], _, _, _ => rfl
  | x :: rs, seen, hnd, hdisj => by
      have hx : x ∉ seen := hdisj x (List.mem_cons_self _ _)
      obtain ⟨hxrs, hnd'⟩ := List.nodup_cons.mp hnd
      simp only [dropDupSeen, if_neg hx]
      refine congrArg (x :: ·) (dropDupSeen_eq_self rs (x :: seen) hnd' ?_)
      intro r hr hseen
      rcases List.mem_cons.mp hseen with rfl | hseen
      · exact hxrs hr
      · exact (hdisj r (List.mem_cons_of_mem _ hr)) hseen

theorem dropDuplicates_eq_self_of_nodup (rows : List Row) (h : rows.Nodup) :
    dropDuplicates rows = rows :=
  dropDupSeen_eq_self rows [] h (by simp)

theorem dropDupSeen_eq_firstOccSpec :
    ∀ (rows seen : List Row),
      dropDupSeen rows seen = firstOccSpec (rows.filter (fun x => x ∉ seen))
  | [], _ => by simp [dropDupSeen, firstOccSpec]
  | x :: rs, seen => by
      by_cases hx : x ∈ seen
      · rw [dropDupSeen, if_pos hx, List.filter_cons,
          if_neg (by simpa using hx), dropDupSeen_eq_firstOccSpec rs seen]
      · rw [dropDupSeen, if_neg hx, List.filter_cons, if_pos (by simpa using hx),
          firstOccSpec, dropDupSeen_eq_firstOccSpec rs (x :: seen)]
        refine congrArg (x :: firstOccSpec ·) ?_
        rw [List.filter_filter]
        refine List.filter_congr ?_
        intro a _
        by_cases hax : a = x
        · subst hax
          simp
        · by_cases has : a ∈ seen <;> simp [hax, has]

theorem dropDuplicates_eq_firstOccSpec (rows : List Row) :
    dropDuplicates rows = firstOccSpec rows := by
  rw [dropDuplicates, dropDupSeen_eq_firstOccSpec, List.filter_eq_self.mpr]
  intro a _
  simp

theorem numFillCell_of_ne_missing (b : Bool) (m : Option ℚ) (v : Value) (h : v ≠ .missing) :
    numFillCell b m v = v := by
  cases v
  · rfl
  · rfl
  · exact absurd rfl h

theorem cleanCell_of_ne_missing (b : Bool) (m : Option ℚ) (v : Value) (h : v ≠ .missing) :
    cleanCell b m v = v := by
  cases v
  · rfl
  · rfl
  · exact absurd rfl h

theorem cleanCell_eq_missing_iff (b : Bool) (m : Option ℚ) (v : Value) :
    cleanCell b m v = .missing ↔ v = .missing ∧ b = true ∧ m = none := by
  cases b <;> cases m <;> cases v <;>
    simp [cleanCell, numFillCell, textFillCell]

theorem getD_lt_of_ne_default (r : Row) (j : Nat) (h : r.getD j .missing ≠ .missing) :
    j < r.length := by
  by_contra hle
  exact h (getD_default_of_le r j .missing (Nat.le_of_not_lt hle))

theorem colCells_map (rows : List Row) (g : Row → Row) (j : Nat) :
    colCells (rows.map g) j = rows.map (fun r => (g r).getD j .missing) := by
  simp [colCells, List.map_map]

theorem mem_colCells_of_getD (rows : List Row) (r : Row) (j : Nat) (h : r ∈ rows) :
    r.getD j .missing ∈ colCells rows j :=
  List.mem_map.mpr ⟨r, h, rfl⟩

theorem colCells_numFillRows (d : List Row) (j : Nat) :
    colCells (numFillRows d) j =
      d.map (fun r =>
        if j < r.length then numFillCell (numericCol d j) (colMean d j) (r.getD j .missing)
        else .missing) := by
  rw [numFillRows, colCells_map]
  exact List.map_congr_left (fun r _ => mapCellsFrom_getD _ r j)

theorem numericCol_numFillRows (d : List Row) (j : Nat) :
    numericCol (numFillRows d) j = numericCol d j := by
  cases h : numericCol d j
  · rw [numericCol] at h ⊢
    rw [List.all_eq_false] at h ⊢
    obtain ⟨v, hv, hvp⟩ := h
    obtain ⟨r, hr, hveq⟩ := List.mem_map.mp hv
    rcases v with q | s | _
    · simp [isNum] at hvp
    · have hlt : j < r.length := getD_lt_of_ne_default r j (by rw [hveq]; simp)
      refine ⟨.str s, ?_, by simp [isMissing, isNum]⟩
      rw [colCells_numFillRows]
      refine List.mem_map.mpr ⟨r, hr, ?_⟩
      rw [if_pos hlt, hveq]
      rfl
    · simp [isMissing] at hvp
  · have hcol := h
    rw [numericCol] at h ⊢
    rw [List.all_eq_true] at h ⊢
    intro v hv
    rw [colCells_numFillRows] at hv
    obtain ⟨r, hr, hveq⟩ := List.mem_map.mp hv
    by_cases hlt : j < r.length
    · rw [if_pos hlt] at hveq
      have hcell := h (r.getD j .missing) (mem_colCells_of_getD d r j hr)
      rcases hc : r.getD j .missing with q | s | _
      · rw [hc] at hveq
        subst hveq
        simp [numFillCell, isNum]
      · rw [hc] at hcell
        simp [isMissing, isNum] at hcell
      · rw [hc] at hveq
        subst hveq
        rcases hm : colMean d j with _ | m <;>
          simp [numFillCell, hm, hcol, isMissing, isNum]
    · rw [if_neg hlt] at hveq
      subst hveq
      simp [isMissing]

theorem textFill_numFill (d : List Row) : textFillRows (numFillRows d) = fillRows d := by
  have hg : (fun j v => textFillCell (numericCol (numFillRows d) j) v) =
      (fun j v => textFillCell (numericCol d j) v) := by
    funext j v
    rw [numericCol_numFillRows]
  rw [textFillRows, hg, numFillRows, fillRows, List.map_map]
  refine List.map_congr_left ?_
  intro r _
  apply List.ext_get?
  intro j
  rw [Function.comp_apply, mapCellsFrom_get?, mapCellsFrom_get?, fillRow, mapCellsFrom_get?]
  rcases r.get? j with _ | v
  · rfl
  · simp only [Option.map_some', Nat.zero_add]
    rfl

theorem clean_data_rows (t : Table) :
    (clean_data t).rows = fillRows (dropDuplicates t.rows) := by
  simp [clean_data, textFill_numFill]

theorem fillRow_get? (d : List Row) (r : Row) (j : Nat) :
    (fillRow d r).get? j = (r.get? j).map (cleanCell (numericCol d j) (colMean d j)) := by
  rw [fillRow, mapCellsFrom_get?]
  simp [Nat.zero_add]

theorem colMean_eq_none_iff (d : List Row) (j : Nat) :
    colMean d j = none ↔ colNums d j = [] := by
  rw [colMean]
  split
  · simp_all [List.isEmpty_iff]
  · simp_all [List.isEmpty_iff]

theorem colNums_eq_nil_iff (d : List Row) (j : Nat) :
    colNums d j = [] ↔ ∀ v ∈ colCells d j, isNum v = false := by
  rw [colNums, List.filterMap_eq_nil_iff]
  constructor
  · intro h v hv
    have := h v hv
    cases v <;> simp_all [isNum]
  · intro h v hv
    have := h v hv
    cases v <;> simp_all [isNum]

theorem colCells_all_missing (d : List Row) (j : Nat) (hnum : numericCol d j = true)
    (hnil : colNums d j = []) : ∀ v ∈ colCells d j, v = .missing := by
  intro v hv
  rw [numericCol] at hnum
  have hp := List.all_eq_true.mp hnum v hv
  have hnn := (colNums_eq_nil_iff d j).mp hnil v hv
  cases v <;> simp_all [isMissing, isNum]

theorem colCells_fillRows_all_missing (d : List Row) (j : Nat) (hnum : numericCol d j = true)
    (hnil : colNums d j = []) : ∀ v ∈ colCells (fillRows d) j, v = .missing := by
  intro v hv
  rw [fillRows, colCells_map] at hv
  obtain ⟨r, hr, hveq⟩ := List.mem_map.mp hv
  rw [fillRow, mapCellsFrom_getD] at hveq
  by_cases hlt : j < r.length
  · rw [if_pos hlt] at hveq
    have hmiss := colCells_all_missing d j hnum hnil _ (mem_colCells_of_getD d r j hr)
    rw [hmiss, (colMean_eq_none_iff d j).mpr hnil] at hveq
    subst hveq
    rw [hnum]
    rfl
  · rw [if_neg hlt] at hveq
    exact hveq.symm

theorem fillRows_idem (d : List Row) : fillRows (fillRows d) = fillRows d := by
  apply List.ext_get?
  intro i
  rw [show fillRows (fillRows d) = (fillRows d).map (fillRow (fillRows d)) from rfl,
    List.get?_map]
  rcases hrow : (fillRows d).get? i with _ | r
  · rfl
  · simp only [Option.map_some']
    refine congrArg some (List.ext_get? ?_)
    intro j
    rw [fillRow_get?]
    rcases hcell : r.get? j with _ | w
    · rfl
    · simp only [Option.map_some']
      refine congrArg some ?_
      by_cases hw : w = .missing
      · subst hw
        have hrmem : r ∈ fillRows d := List.get?_mem hrow
        obtain ⟨r0, hr0, hreq⟩ := List.mem_map.mp hrmem
        have hw' : (fillRow d r0).get? j = some .missing := by rw [hreq]; exact hcell
        rw [fillRow_get?] at hw'
        rcases hc0 : r0.get? j with _ | v
        · rw [hc0] at hw'
          simp at hw'
        · rw [hc0] at hw'
          simp only [Option.map_some', Option.some.injEq] at hw'
          obtain ⟨hv, hb, hm⟩ := (cleanCell_eq_missing_iff _ _ _).mp hw'
          have hnil : colNums d j = [] := (colMean_eq_none_iff d j).mp hm
          have hall := colCells_fillRows_all_missing d j hb hnil
          have hbX : numericCol (fillRows d) j = true := by
            rw [numericCol, List.all_eq_true]
            intro u hu
            rw [hall u hu]
            rfl
          have hnilX : colNums (fillRows d) j = [] := by
            rw [colNums_eq_nil_iff]
            intro u hu
            rw [hall u hu]
            rfl
          rw [hbX, (colMean_eq_none_iff _ j).mpr hnilX]
          rfl
      · exact cleanCell_of_ne_missing _ _ w hw

theorem cell?_fillRows (d : List Row) (i j : Nat) :
    cell? (fillRows d) i j = (cell? d i j).map (cleanCell (numericCol d j) (colMean d j)) := by
  rw [cell?, cell?, fillRows, List.get?_map]
  rcases d.get? i with _ | r
  · rfl
  · simp [← List.get?_eq_getElem?, fillRow_get?]

theorem mem_iff_get? {α : Type} (l : List α) (a : α) : a ∈ l ↔ ∃ n, l.get? n = some a := by
  simp only [List.get?_eq_getElem?]
  exact List.mem_iff_getElem?

theorem storeCell_true (v : Value) : storeCell true v = v := by
  cases v <;> simp [storeCell]

theorem storeCell_of_not_num (b : Bool) (v : Value) (h : isNum v = false) :
    storeCell b v = v := by
  cases v <;> simp_all [storeCell, isNum]

theorem validate_eq_filter (t : Table) (i : Nat) (hnd : (t.cols.map colKey).Nodup)
    (hidx : t.cols.findIdx? (fun c => colKey c = "amount") = some i) :
    validate_with_sql t =
      ⟨t.cols,
        (t.rows.map (mapCellsFrom (fun j v => storeCell (numericCol t.rows j) v) 0)).filter
          (fun r => sqlKeep (numericCol t.rows i) (r.getD i .missing))⟩ := by
  unfold validate_with_sql
  rw [if_pos hnd, hidx]

/-- C1 (counterexample): the claim "for every input Table, `clean_data`
output contains no missing cells" fails — on the one-column Table whose
single cell is missing the column is numeric (an all-`NaN` `float64`
column), its mean is undefined, and `clean_data` leaves the cell missing. -/
theorem c1_counterexample :
    ¬ (∀ r ∈ (clean_data ⟨["A"], [[.missing]]⟩).rows, ∀ v ∈ r, v ≠ Value.missing) := by
  decide

/-- C1 (amended): for every rectangular Table in which every column has at
least one non-missing cell, the output of `clean_data` contains no missing
cell in any column — numeric cells hold numbers and text cells hold strings
(possibly the fallback `"Unknown"`). -/
theorem c1_amended (t : Table) (hw : ∀ r ∈ t.rows, r.length = t.cols.length)
    (hmiss : ∀ j, j < t.cols.length → ∃ r ∈ t.rows, r.getD j .missing ≠ .missing) :
    ∀ r ∈ (clean_data t).rows, ∀ v ∈ r, v ≠ Value.missing := by
  intro r hr v hv
  rw [clean_data_rows, fillRows] at hr
  obtain ⟨r0, hr0, hreq⟩ := List.mem_map.mp hr
  obtain ⟨j, hj⟩ := (mem_iff_get? r v).mp hv
  subst hreq
  rw [fillRow_get?] at hj
  rcases hc0 : r0.get? j with _ | v0
  · rw [hc0] at hj
    simp at hj
  · rw [hc0] at hj
    simp only [Option.map_some', Option.some.injEq] at hj
    have hjlt : j < r0.length := (List.get?_eq_some.mp hc0).choose
    have hlen : r0.length = t.cols.length :=
      hw r0 (mem_of_mem_dropDupSeen _ _ _ hr0)
    by_cases hb : numericCol (dropDuplicates t.rows) j = true
    · by_cases hv0 : v0 = .missing
      · subst hv0
        obtain ⟨rw0, hrw0, hrne⟩ := hmiss j (hlen ▸ hjlt)
        have hrwd : rw0 ∈ dropDuplicates t.rows := mem_dropDuplicates t.rows rw0 hrw0
        have hcellmem : rw0.getD j .missing ∈ colCells (dropDuplicates t.rows) j :=
          mem_colCells_of_getD _ rw0 j hrwd
        have hpred := List.all_eq_true.mp (by rw [numericCol] at hb; exact hb) _ hcellmem
        have hnnil : colNums (dropDuplicates t.rows) j ≠ [] := by
          intro hnil
          have hnn := (colNums_eq_nil_iff _ j).mp hnil _ hcellmem
          rcases hcv : rw0.getD j .missing with q | s | _
          · rw [hcv] at hnn
            simp [isNum] at hnn
          · rw [hcv] at hpred
            simp [isMissing, isNum] at hpred
          · exact hrne hcv
        rcases hm : colMean (dropDuplicates t.rows) j with _ | m
        · exact absurd ((colMean_eq_none_iff _ j).mp hm) hnnil
        · rw [← hj, hb, hm]
          simp [cleanCell, numFillCell, textFillCell]
      · rw [← hj, cleanCell_of_ne_missing _ _ _ hv0]
        exact hv0
    · have hbf : numericCol (dropDuplicates t.rows) j = false := by
        revert hb
        cases numericCol (dropDuplicates t.rows) j <;> simp
      by_cases hv0 : v0 = .missing
      · subst hv0
        rw [← hj, hbf]
        simp [cleanCell, numFillCell, textFillCell]
      · rw [← hj, cleanCell_of_ne_missing _ _ _ hv0]
        exact hv0

/-- C1 (witness): the amended theorem at a concrete Table — two rows over
columns `A` (numeric with one missing cell) and `B` (text with one missing
cell); after cleaning no cell is missing. -/
theorem c1_witness :
    (∀ j, j < (⟨["A", "B"], [[.num 1, .missing], [.missing, .str "x"]]⟩ : Table).cols.length →
        ∃ r ∈ (⟨["A", "B"], [[.num 1, .missing], [.missing, .str "x"]]⟩ : Table).rows,
          r.getD j .missing ≠ .missing) ∧
      (∀ r ∈ (clean_data ⟨["A", "B"], [[.num 1, .missing], [.missing, .str "x"]]⟩).rows,
        ∀ v ∈ r, v ≠ Value.missing) :=
  ⟨by decide, c1_amended _ (by decide) (by decide)⟩

/-- C2 (counterexample): `clean_data` is not idempotent — on rows
`[missing]` and `["Unknown"]` of one text column the first pass fills the
missing cell to `"Unknown"`, making the rows identical, and the second pass
deduplicates them. -/
theorem c2_counterexample :
    clean_data (clean_data ⟨["A"], [[.missing], [.str "Unknown"]]⟩) ≠
      clean_data ⟨["A"], [[.missing], [.str "Unknown"]]⟩ := by
  decide

/-- C2 (amended): `clean_data` is idempotent on every Table whose cleaned
rows are pairwise distinct; in general a second application can only
deduplicate rows that the fill steps made identical (the fills themselves
are idempotent). -/
theorem c2_amended (t : Table) (h : (clean_data t).rows.Nodup) :
    clean_data (clean_data t) = clean_data t := by
  have h1 : clean_data (clean_data t) =
      ⟨(clean_data t).cols, textFillRows (numFillRows (dropDuplicates (clean_data t).rows))⟩ :=
    rfl
  rw [h1, dropDuplicates_eq_self_of_nodup _ h, textFill_numFill, clean_data_rows t,
    fillRows_idem, ← clean_data_rows t]

/-- C2 (witness): the amended theorem at a concrete Table whose cleaned
rows are distinct. -/
theorem c2_witness :
    clean_data (clean_data ⟨["A", "B"], [[.num 1, .str "x"], [.num 2, .missing]]⟩) =
      clean_data ⟨["A", "B"], [[.num 1, .str "x"], [.num 2, .missing]]⟩ :=
  c2_amended _ (by decide)

/-- C7: in `clean_data`, for every column classified numeric, every missing
cell is replaced by the arithmetic mean of the column's non-missing values;
a numeric column with zero non-missing values is left missing, with no
error, and deduplication still applies (the output has exactly the
deduplicated row count). -/
theorem c7_numeric_fill (t : Table) (j : Nat)
    (hnum : numericCol (dropDuplicates t.rows) j = true) :
    (clean_data t).rows.length = (dropDuplicates t.rows).length ∧
      ∀ i, cell? (clean_data t).rows i j =
        (cell? (dropDuplicates t.rows) i j).map (fun v =>
          if v = Value.missing then
            (if colNums (dropDuplicates t.rows) j = [] then Value.missing
             else Value.num ((colNums (dropDuplicates t.rows) j).sum /
               ((colNums (dropDuplicates t.rows) j).length : ℚ)))
          else v) := by
  constructor
  · rw [clean_data_rows, fillRows, List.length_map]
  · intro i
    rw [clean_data_rows, cell?_fillRows]
    cases hc : cell? (dropDuplicates t.rows) i j with
    | none => rfl
    | some v =>
        simp only [Option.map_some']
        refine congrArg some ?_
        by_cases hv : v = Value.missing
        · subst hv
          rw [if_pos rfl]
          by_cases hnil : colNums (dropDuplicates t.rows) j = []
          · rw [if_pos hnil, hnum, (colMean_eq_none_iff _ j).mpr hnil]
            rfl
          · have hsome : colMean (dropDuplicates t.rows) j =
                some ((colNums (dropDuplicates t.rows) j).sum /
                  ((colNums (dropDuplicates t.rows) j).length : ℚ)) := by
              simp [colMean, List.isEmpty_iff, hnil]
            rw [if_neg hnil, hnum, hsome]
            rfl
        · rw [if_neg hv, cleanCell_of_ne_missing _ _ _ hv]

/-- C7 (witness): the theorem at a one-column numeric Table with one
missing cell. -/
theorem c7_witness :
    (clean_data ⟨["Amount"], [[.num 1], [.missing]]⟩).rows.length =
        (dropDuplicates (⟨["Amount"], [[.num 1], [.missing]]⟩ : Table).rows).length ∧
      ∀ i, cell? (clean_data ⟨["Amount"], [[.num 1], [.missing]]⟩).rows i 0 =
        (cell? (dropDuplicates (⟨["Amount"], [[.num 1], [.missing]]⟩ : Table).rows) i 0).map
          (fun v =>
            if v = Value.missing then
              (if colNums (dropDuplicates (⟨["Amount"], [[.num 1], [.missing]]⟩ : Table).rows) 0
                  = [] then Value.missing
               else Value.num
                 ((colNums (dropDuplicates (⟨["Amount"], [[.num 1], [.missing]]⟩ : Table).rows)
                     0).sum /
                   ((colNums (dropDuplicates (⟨["Amount"], [[.num 1], [.missing]]⟩ : Table).rows)
                       0).length : ℚ)))
            else v) :=
  c7_numeric_fill _ 0 (by decide)

/-- C8: `clean_data` deduplicates before it fills — its rows are exactly
the fills of the deduplicated rows, and deduplication collapses each group
of identical rows (missing markers comparing equal, as in our cell
equality) to its first occurrence: the kept rows are the recursive
first-occurrence collapse of the input, a subsequence of the input with no
remaining duplicates. -/
theorem c8_dedup_before_fill (t : Table) :
    (clean_data t).rows = (dropDuplicates t.rows).map (fillRow (dropDuplicates t.rows)) ∧
      dropDuplicates t.rows = firstOccSpec t.rows ∧
      (dropDuplicates t.rows).Sublist t.rows ∧ (dropDuplicates t.rows).Nodup :=
  ⟨clean_data_rows t, dropDuplicates_eq_firstOccSpec _, dropDupSeen_sublist _ _,
    dropDuplicates_nodup _⟩

/-- C9 (counterexample): the claim that any internal error leaves the Table
unchanged fails — an error raised during the numeric fill reaches the
handler after `df` was already rebound to the deduplicated frame, so a
Table with a duplicate row comes back shortened, not unchanged. -/
theorem c9_counterexample :
    clean_dataOnError ⟨["A"], [[.str "a"], [.str "a"]]⟩ CleanStep.numericFillStep ≠
      ⟨["A"], [[.str "a"], [.str "a"]]⟩ := by
  decide

/-- C9 (amended): `clean_data` is atomic only for errors in the
deduplication statement, which return the input unchanged; an error in the
numeric fill returns the deduplicated frame (a subsequence of the input
rows), and an error in the text fill returns the deduplicated frame with
the numeric fill already applied. -/
theorem c9_amended (t : Table) :
    clean_dataOnError t CleanStep.dedupStep = t ∧
      (clean_dataOnError t CleanStep.numericFillStep).rows.Sublist t.rows ∧
      (clean_dataOnError t CleanStep.textFillStep).rows =
        numFillRows (dropDuplicates t.rows) :=
  ⟨rfl, dropDupSeen_sublist _ _, rfl⟩

/-- C3 (counterexample): the claim "every row of `validate_with_sql t` with
an Amount cell satisfies Amount >= 0" fails — when the Amount column holds
the string `"abc"` it is stored with TEXT affinity and `Amount >= 0`
compares it with the text `'0'`, so the row is kept although its Amount
value is not a nonnegative number. -/
theorem c3_counterexample :
    ¬ (∀ r ∈ (validate_with_sql ⟨["Amount"], [[.str "abc"]]⟩).rows,
        isNonnegAmount (r.getD 0 .missing) = true) := by
  decide

/-- C3 (amended): for every Table with SQLite-distinct column names, an
`Amount` column at index `i`, and that column classified numeric, every row
of `validate_with_sql t` has a nonnegative number in the Amount column. -/
theorem c3_amended (t : Table) (i : Nat) (hnd : (t.cols.map colKey).Nodup)
    (hidx : t.cols.findIdx? (fun c => colKey c = "amount") = some i)
    (hnum : numericCol t.rows i = true) :
    ∀ r ∈ (validate_with_sql t).rows, isNonnegAmount (r.getD i .missing) = true := by
  intro r hr
  rw [validate_eq_filter t i hnd hidx] at hr
  obtain ⟨hrs, hkeep⟩ := List.mem_filter.mp hr
  obtain ⟨r0, hr0, hreq⟩ := List.mem_map.mp hrs
  subst hreq
  rw [mapCellsFrom_getD] at hkeep ⊢
  by_cases hlt : i < r0.length
  · rw [if_pos hlt] at hkeep ⊢
    have hcell : r0.getD i .missing ∈ colCells t.rows i := mem_colCells_of_getD _ r0 i hr0
    have hpred := List.all_eq_true.mp (by rw [numericCol] at hnum; exact hnum) _ hcell
    rcases hc : r0.getD i .missing with q | s | _
    · rw [hc, hnum] at hkeep
      rw [hnum]
      simpa [storeCell, sqlKeep, isNonnegAmount] using hkeep
    · rw [hc] at hpred
      simp [isMissing, isNum] at hpred
    · rw [hc] at hkeep
      simp [storeCell, sqlKeep] at hkeep
  · rw [if_neg hlt] at hkeep
    simp [sqlKeep] at hkeep

/-- C3 (witness): the amended theorem at a numeric Amount Table with a
negative and a missing entry. -/
theorem c3_witness :
    (numericCol (⟨["Amount"], [[.num 5], [.num (-3)], [.missing]]⟩ : Table).rows 0 = true) ∧
      (∀ r ∈ (validate_with_sql ⟨["Amount"], [[.num 5], [.num (-3)], [.missing]]⟩).rows,
        isNonnegAmount (r.getD 0 .missing) = true) :=
  ⟨by decide, c3_amended _ 0 (by decide) (by decide) (by decide)⟩

/-- C4 (counterexample): the claim "the Validator's output is a subsequence
of its input's rows, with no cell value of any retained row changed" fails —
a retained row can come back altered: the numeric cell `2` of the
mixed-typed text column `B` is stored with TEXT affinity and is read back
as the string `"2"`, so the output rows (same count as the input) are not a
subsequence of the input rows. -/
theorem c4_counterexample :
    (validate_with_sql ⟨["Amount", "B"], [[.num 0, .str "x"], [.num 1, .num 2]]⟩).rows.length =
        (⟨["Amount", "B"], [[.num 0, .str "x"], [.num 1, .num 2]]⟩ : Table).rows.length ∧
      ¬ (validate_with_sql ⟨["Amount", "B"], [[.num 0, .str "x"], [.num 1, .num 2]]⟩).rows.Sublist
          (⟨["Amount", "B"], [[.num 0, .str "x"], [.num 1, .num 2]]⟩ : Table).rows := by
  decide

/-- C4 (amended): for every rectangular Table in which no column mixes
numeric and text values (each column is classified numeric or holds no
numeric cell), the Validator's output keeps the column list, its rows are a
subsequence of the input rows — order preserved, rows only dropped, no cell
mutated — and the row count never increases. -/
theorem c4_amended (t : Table) (hw : ∀ r ∈ t.rows, r.length = t.cols.length)
    (hhom : ∀ j, j < t.cols.length →
      numericCol t.rows j = true ∨ ∀ v ∈ colCells t.rows j, isNum v = false) :
    (validate_with_sql t).cols = t.cols ∧ (validate_with_sql t).rows.Sublist t.rows ∧
      (validate_with_sql t).rows.length ≤ t.rows.length := by
  have hid : ∀ r ∈ t.rows,
      mapCellsFrom (fun j v => storeCell (numericCol t.rows j) v) 0 r = r := by
    intro r hr
    apply List.ext_get?
    intro j
    rw [mapCellsFrom_get?]
    rcases hc : r.get? j with _ | v
    · rfl
    · simp only [Option.map_some', Nat.zero_add]
      refine congrArg some ?_
      have hjlt : j < r.length := (List.get?_eq_some.mp hc).choose
      have hjc : j < t.cols.length := hw r hr ▸ hjlt
      have hvmem : v ∈ colCells t.rows j := by
        have hgd : r.getD j .missing = v := by
          rw [getD_eq_get?, hc]
          rfl
        exact hgd ▸ mem_colCells_of_getD _ r j hr
      rcases hhom j hjc with hb | hnn
      · rw [hb]
        exact storeCell_true v
      · exact storeCell_of_not_num _ v (hnn v hvmem)
  have hstore : t.rows.map (mapCellsFrom (fun j v => storeCell (numericCol t.rows j) v) 0) =
      t.rows := by
    rw [show t.rows.map (mapCellsFrom (fun j v => storeCell (numericCol t.rows j) v) 0) =
        t.rows.map id from List.map_congr_left hid, List.map_id]
  by_cases hnd : (t.cols.map colKey).Nodup
  · cases hidx : t.cols.findIdx? (fun c => colKey c = "amount") with
    | none =>
        unfold validate_with_sql
        rw [if_pos hnd, hidx]
        exact ⟨rfl, List.Sublist.refl _, Nat.le_refl _⟩
    | some i =>
        rw [validate_eq_filter t i hnd hidx, hstore]
        exact ⟨rfl, List.filter_sublist t.rows, List.length_filter_le _ t.rows⟩
  · unfold validate_with_sql
    rw [if_neg hnd]
    exact ⟨rfl, List.Sublist.refl _, Nat.le_refl _⟩

/-- C4 (witness): the amended theorem at a Table with a numeric Amount
column and a pure text column; the negative row is dropped and the rest is
returned verbatim. -/
theorem c4_witness :
    (validate_with_sql ⟨["Amount", "B"], [[.num 1, .str "x"], [.num (-2), .str "y"]]⟩).cols =
        (⟨["Amount", "B"], [[.num 1, .str "x"], [.num (-2), .str "y"]]⟩ : Table).cols ∧
      (validate_with_sql ⟨["Amount", "B"],
          [[.num 1, .str "x"], [.num (-2), .str "y"]]⟩).rows.Sublist
        (⟨["Amount", "B"], [[.num 1, .str "x"], [.num (-2), .str "y"]]⟩ : Table).rows ∧
      (validate_with_sql ⟨["Amount", "B"],
          [[.num 1, .str "x"], [.num (-2), .str "y"]]⟩).rows.length ≤
        (⟨["Amount", "B"], [[.num 1, .str "x"], [.num (-2), .str "y"]]⟩ : Table).rows.length :=
  c4_amended _ (by decide) (by decide)

/-- C5 (counterexample): the claim "a Table without the designated column
`Amount` passes through unchanged" fails — SQLite resolves the unquoted
name `Amount` case-insensitively, so a Table with a column `amount` (and no
column `Amount`) is still filtered: its negative row is removed. -/
theorem c5_counterexample :
    ("Amount" ∉ (⟨["amount"], [[.num (-1)]]⟩ : Table).cols) ∧
      validate_with_sql ⟨["amount"], [[.num (-1)]]⟩ ≠ ⟨["amount"], [[.num (-1)]]⟩ := by
  decide

/-- C5 (amended): for every Table none of whose column names equals
`Amount` up to ASCII case, the Validator returns the Table unchanged — same
row count, same content. -/
theorem c5_amended (t : Table) (h : ∀ c ∈ t.cols, colKey c ≠ "amount") :
    validate_with_sql t = t := by
  have hidx : t.cols.findIdx? (fun c => colKey c = "amount") = none := by
    rw [List.findIdx?_eq_none_iff]
    intro c hc
    simpa using h c hc
  by_cases hnd : (t.cols.map colKey).Nodup
  · unfold validate_with_sql
    rw [if_pos hnd, hidx]
  · unfold validate_with_sql
    rw [if_neg hnd]

/-- C5 (witness): the amended theorem at a one-column Table named `X`. -/
theorem c5_witness :
    validate_with_sql ⟨["X"], [[.num 1]]⟩ = ⟨["X"], [[.num 1]]⟩ :=
  c5_amended _ (by decide)

/-- C6 (counterexample): extension dispatch is not case-insensitive — the
name `data.CSV` is parsed as an Excel workbook, while the same name with
its ASCII letters lowercased is parsed as CSV. -/
theorem c6_counterexample :
    fileDispatch "data.CSV" = ParseFormat.excel ∧
      fileDispatch ⟨"data.CSV".data.map lowerChar⟩ = ParseFormat.csv := by
  decide

/-- C6 (amended): extension dispatch is case-sensitive — a file name is
parsed as comma-delimited text exactly when it ends with the four
characters `.csv` in lowercase; every other name, including `.CSV`
variants, is parsed as a spreadsheet workbook. -/
theorem c6_amended (name : String) :
    fileDispatch name = ParseFormat.csv ↔ ".csv".data <:+ name.data := by
  rw [fileDispatch, ← List.isSuffixOf_iff_suffix]
  by_cases h : ".csv".data.isSuffixOf name.data = true
  · rw [if_pos h]
    simp [h]
  · rw [if_neg h]
    simp [h]

/-- C10 (counterexample): the claim "every Table containing the column
`Amount` has its missing-Amount rows removed" fails when a second column
named `amount` is present — SQLite rejects the `CREATE TABLE` for two
column names equal up to ASCII case, the handler returns the frame
unchanged, and the row whose Amount cell is missing survives. -/
theorem c10_counterexample :
    ("Amount" ∈ (⟨["Amount", "amount"], [[.missing, .num 1]]⟩ : Table).cols) ∧
      validate_with_sql ⟨["Amount", "amount"], [[.missing, .num 1]]⟩ =
        ⟨["Amount", "amount"], [[.missing, .num 1]]⟩ ∧
      ((validate_with_sql ⟨["Amount", "amount"],
          [[.missing, .num 1]]⟩).rows.getD 0 []).getD 0 .missing = Value.missing := by
  decide

/-- C10 (amended): for every Table with SQLite-distinct column names and an
`Amount` column at index `i`, no row of the Validator's output has a
missing Amount cell — a NULL never satisfies `Amount >= 0`, whatever the
column's affinity, so such rows are always dropped, even rows the Cleaner
left missing. -/
theorem c10_no_missing_amount (t : Table) (i : Nat) (hnd : (t.cols.map colKey).Nodup)
    (hidx : t.cols.findIdx? (fun c => colKey c = "amount") = some i) :
    ∀ r ∈ (validate_with_sql t).rows, r.getD i .missing ≠ .missing := by
  intro r hr hmiss
  rw [validate_eq_filter t i hnd hidx] at hr
  obtain ⟨-, hkeep⟩ := List.mem_filter.mp hr
  rw [hmiss] at hkeep
  simp [sqlKeep] at hkeep

/-- C10 (witness): the theorem at a Table whose Amount column has a missing
entry, even one the Cleaner would have left missing. -/
theorem c10_witness :
    ((⟨["Amount"], [[.missing], [.num 2]]⟩ : Table).cols.findIdx?
        (fun c => colKey c = "amount") = some 0) ∧
      (∀ r ∈ (validate_with_sql ⟨["Amount"], [[.missing], [.num 2]]⟩).rows,
        r.getD 0 .missing ≠ .missing) :=
  ⟨by decide, c10_no_missing_amount _ 0 (by decide) (by decide)⟩

end ExcelWorkflow
